import Mathlib

/-!
Verification of the SRT-extraction core of the AI subtitle generator.

Strings are modelled as `List Char` (JS strings over their code points; all
inputs of interest are ASCII).  The two regular expressions of
`src/services/geminiService.ts` are embedded as deterministic backtracking
matchers with JS semantics: leftmost match, greedy `(?:srt)?` and `\s*`,
lazy `([\s\S]+?)`.
-/

namespace SubGen

/-- JS whitespace class `\s` (and the characters removed by
`String.prototype.trim`), decided on the code point. -/
def isJsWs (c : Char) : Bool :=
  let n := c.toNat
  n == 32 || n == 9 || n == 10 || n == 11 || n == 12 || n == 13 ||
  n == 0xA0 || n == 0x1680 || (0x2000 ≤ n && n ≤ 0x200A) ||
  n == 0x2028 || n == 0x2029 || n == 0x202F || n == 0x205F ||
  n == 0x3000 || n == 0xFEFF

/-- JS digit class `\d`, i.e. `[0-9]`. -/
def isDigitCh (c : Char) : Bool :=
  48 ≤ c.toNat && c.toNat ≤ 57

/-- Left part of `String.prototype.trim`. -/
def trimLeft (s : List Char) : List Char := s.dropWhile isJsWs

/-- Right part of `String.prototype.trim`. -/
def trimRight (s : List Char) : List Char := (s.reverse.dropWhile isJsWs).reverse

/-- `String.prototype.trim` (geminiService.ts line 49, 55). -/
def jsTrim (s : List Char) : List Char := trimRight (trimLeft s)

/-- `pat` is a prefix of `s` (JS `startsWith`; the anchored test of a
literal regex fragment). -/
def startsWith : List Char → List Char → Bool
  | [], _ => true
  | _ :: _, [] => false
  | p :: ps, c :: cs => p == c && startsWith ps cs

/-- One entry of a fixed-shape character-class pattern. -/
def matchClasses : List (Char → Bool) → List Char → Bool
  | [], _ => true
  | _ :: _, [] => false
  | p :: ps, c :: cs => p c && matchClasses ps cs

/-- `[,.]`: the millisecond separator accepted by the timing regex. -/
def isTimingSep (c : Char) : Bool := c.toNat == 44 || c.toNat == 46

/-- The timing-line pattern
`\d{2}:\d{2}:\d{2}[,.]\d{3} --> \d{2}:\d{2}:\d{2}[,.]\d{3}`
of geminiService.ts line 60, as a positional class list (29 places). -/
def timingPat : List (Char → Bool) :=
  [isDigitCh, isDigitCh, (· == ':'), isDigitCh, isDigitCh, (· == ':'),
   isDigitCh, isDigitCh, isTimingSep, isDigitCh, isDigitCh, isDigitCh,
   (· == ' '), (· == '-'), (· == '-'), (· == '>'), (· == ' '),
   isDigitCh, isDigitCh, (· == ':'), isDigitCh, isDigitCh, (· == ':'),
   isDigitCh, isDigitCh, isTimingSep, isDigitCh, isDigitCh, isDigitCh]

/-- Does the timing-line pattern match a prefix of `s`? -/
def timingMatch (s : List Char) : Bool := matchClasses timingPat s

/-- `\s*\n` followed by the timing pattern: all backtracking splits of the
whitespace run are explored, so this is the existence of a match. -/
def wsNlTiming : List Char → Bool
  | [] => false
  | c :: rest => (c == '\n' && timingMatch rest) || (isJsWs c && wsNlTiming rest)

/-- After at least one digit of `\d+`: either more digits, or
`\s*\n` and the timing line. -/
def digitsRest : List Char → Bool
  | [] => false
  | c :: rest => wsNlTiming (c :: rest) || (isDigitCh c && digitsRest rest)

/-- Anchored match of the whole cue-header regex
`\d+\s*\n\d{2}:\d{2}:\d{2}[,.]\d{3} --> \d{2}:\d{2}:\d{2}[,.]\d{3}`
at the start of `s`. -/
def cueMatchAt : List Char → Bool
  | [] => false
  | c :: rest => isDigitCh c && digitsRest rest

/-- Index of the leftmost cue-header match (`srtBlockMatch.index` of
geminiService.ts line 60-62). -/
def findCueIdx : List Char → Option Nat
  | [] => none
  | c :: rest =>
    if cueMatchAt (c :: rest) then some 0
    else (findCueIdx rest).map (· + 1)

/-- The literal `\n\x60\x60\x60` that closes a fenced block. -/
def nlTicks : List Char := ['\n', '`', '`', '`']

/-- Lazy `([\s\S]+?)\n\x60\x60\x60`: the shortest nonempty capture followed
by a newline and closing fence. -/
def lazyCap : List Char → Option (List Char)
  | [] => none
  | c :: rest =>
    if startsWith nlTicks rest then some [c]
    else (lazyCap rest).map (c :: ·)

/-- Greedy `\s*\n` then the lazy capture: longer whitespace runs are
preferred, backing off to shorter ones (JS backtracking order). -/
def wsNlCap : List Char → Option (List Char)
  | [] => none
  | c :: rest =>
    if isJsWs c then
      match wsNlCap rest with
      | some cap => some cap
      | none => if c == '\n' then lazyCap rest else none
    else none

/-- Greedy `(?:srt)?` then `\s*\n capture \n\x60\x60\x60`: the tag is
consumed when present, retrying without it if the remainder fails. -/
def afterTicks (s : List Char) : Option (List Char) :=
  if startsWith (['s', 'r', 't']) s then
    match wsNlCap (s.drop 3) with
    | some cap => some cap
    | none => wsNlCap s
  else wsNlCap s

/-- Anchored match of the markdown-fence regex at the start of `s`,
returning capture group 1. -/
def fenceAt (s : List Char) : Option (List Char) :=
  if startsWith (['`', '`', '`']) s then afterTicks (s.drop 3) else none

/-- Leftmost match of the fence regex (JS `String.prototype.match` without
the global flag). -/
def findFence : List Char → Option (List Char)
  | [] => none
  | c :: rest =>
    match fenceAt (c :: rest) with
    | some cap => some cap
    | none => findFence rest

/-- Markdown unwrap (geminiService.ts lines 53-56): if the fence regex
matches and the capture is truthy, replace the text with the trimmed
capture. -/
def mdUnwrap (s : List Char) : List Char :=
  match findFence s with
  | some cap => if cap.isEmpty then s else jsTrim cap
  | none => s

/-- The cleaned response text: trimmed (line 49), markdown-unwrapped
(lines 53-56). -/
def clean (t : List Char) : List Char := mdUnwrap (jsTrim t)

/-- Outcome of the extraction/classification of a response
(geminiService.ts lines 49-71). -/
inductive GenResult
  | ok (srt : List Char)
  | safetyBlocked
  | noValidSrt
deriving DecidableEq, Repr

/-- Lines 49-71 of geminiService.ts: trim, unwrap, find the first cue
header and return the substring from it; otherwise classify the failure,
checking the SAFETY finish-reason first. -/
def extractSrt (text : List Char) (safety : Bool) : GenResult :=
  match findCueIdx (clean text) with
  | some i => .ok ((clean text).drop i)
  | none => if safety then .safetyBlocked else .noValidSrt

/-- Message of the classification error thrown at geminiService.ts line 69. -/
def safetyMsg : List Char :=
  ("The request was blocked due to safety concerns. The audio may contain sensitive content.".data)

/-- Message of the classification error thrown at geminiService.ts line 71. -/
def noValidSrtMsg : List Char :=
  ("The model did not return a valid SRT format. It might have refused the request or failed to process the audio.".data)

/-- Message thrown at geminiService.ts line 79 for a non-`Error` throwable. -/
def unknownErrMsg : List Char :=
  ("An unknown error occurred while communicating with the AI model.".data)

/-- Prefix added by the catch handler at geminiService.ts line 77. -/
def geminiErrPrefix : List Char := ("Gemini API Error: ".data)

/-- Modelled from the spec (§7): the failure taxonomy.  The code itself
carries no such enumeration; this type names the spec's classification so
that propagation claims can be stated against it. -/
inductive FailureKind
  | readFailure
  | unsupportedContent
  | payloadTooLarge
  | safetyBlocked
  | noValidSrt
  | serviceError
deriving DecidableEq, Repr

/-- How one call to the external service ends, as observed inside the
`try` block of `generateSrtFromAudio`: a response with text and a
finish-reason, a thrown `Error` (transport or accessor failure), or a
thrown non-`Error` value.  A thrown transport `Error` additionally carries
the spec's (§7) classification of its cause, which is data about the
remote service, not derivable from the message text. -/
inductive ServiceOutcome
  | respond (text : List Char) (safety : Bool)
  | throwErr (kind : FailureKind) (msg : List Char)
  | throwNonError
deriving DecidableEq, Repr

/-- What `generateSrtFromAudio` does with a call: succeed with an SRT
string or throw an `Error` with a message. -/
inductive CallResult
  | success (srt : List Char)
  | failure (msg : List Char)
deriving DecidableEq, Repr

/-- `generateSrtFromAudio` (geminiService.ts lines 42-80): the extraction
of lines 49-71 inside a try/catch whose handler rethrows every `Error`
with the `Gemini API Error: ` prefix (line 77) and any non-`Error` value
as a fixed unknown-error message (line 79).  The classification errors of
lines 69 and 71 are thrown inside the `try`, so they too are re-caught and
wrapped. -/
def generateSrtFromAudio : ServiceOutcome → CallResult
  | .respond t s =>
    match extractSrt t s with
    | .ok out => .success out
    | .safetyBlocked => .failure (geminiErrPrefix ++ safetyMsg)
    | .noValidSrt => .failure (geminiErrPrefix ++ noValidSrtMsg)
  | .throwErr _ m => .failure (geminiErrPrefix ++ m)
  | .throwNonError => .failure unknownErrMsg

/-- The message of the underlying `Error` instance caught by the handler
of geminiService.ts line 73, when the throwable is an `Error`:  the
transport error's own message, or the classification message of lines
69/71.  A non-`Error` throwable and a success have none. -/
def underlyingErrorMsg : ServiceOutcome → Option (List Char)
  | .respond t s =>
    match extractSrt t s with
    | .ok _ => none
    | .safetyBlocked => some safetyMsg
    | .noValidSrt => some noValidSrtMsg
  | .throwErr _ m => some m
  | .throwNonError => none

/-! ## The UI layer (src/unnamed/part_000, `processAudio` lines 75-97) -/

/-- JS `String.prototype.toLowerCase` on the ASCII range. -/
def toLowerCh (c : Char) : Char :=
  if 65 ≤ c.toNat && c.toNat ≤ 90 then Char.ofNat (c.toNat + 32) else c

/-- Lower-casing of a whole string (part_000 line 79). -/
def toLower (s : List Char) : List Char := s.map toLowerCh

/-- JS `String.prototype.includes`: does `pat` occur in the string? -/
def hasSubstr (pat : List Char) : List Char → Bool
  | [] => startsWith pat []
  | c :: rest => startsWith pat (c :: rest) || hasSubstr pat rest

/-- part_000 line 81. -/
def fmtSentence : List Char :=
  ("The audio format is not supported. Please use a common format like WAV, MP3, or WEBM.".data)

/-- part_000 line 83. -/
def sizeSentence : List Char :=
  ("The audio file is too large or too long. Please use a smaller file.".data)

/-- part_000 line 85. -/
def aiFailSentence : List Char :=
  ("The AI could not process the audio. It might be silent, contain unsupported content, or be too complex.".data)

/-- part_000 line 87. -/
def safetySentence : List Char :=
  ("Could not generate subtitles as the audio content was flagged for safety reasons.".data)

/-- part_000 line 89. -/
def serviceSentence : List Char :=
  ("There was a problem with the AI service. Please try again later.".data)

/-- part_000 line 77 (default). -/
def unexpectedSentence : List Char :=
  ("An unexpected error occurred. Please try again.".data)

/-- The sentence chosen by `processAudio`'s catch handler (part_000 lines
77-91) for a caught `Error` with message `msg`: ordered case-insensitive
substring tests on the raw message. -/
def uiErrorMessage (msg : List Char) : List Char :=
  let m := toLower msg
  if hasSubstr ("unsupported content".data) m || hasSubstr ("invalid argument".data) m then
    fmtSentence
  else if hasSubstr ("too long".data) m || hasSubstr ("payload size".data) m then
    sizeSentence
  else if hasSubstr ("did not return a valid srt format".data) m then
    aiFailSentence
  else if hasSubstr ("safety concerns".data) m then
    safetySentence
  else if hasSubstr ("gemini api error".data) m then
    serviceSentence
  else unexpectedSentence

/-- The user-facing sentence shown for a failed generation attempt:
`generateSrtFromAudio` throws an `Error`, `processAudio` catches it and
runs the substring tests on its message. -/
def failureSentence (o : ServiceOutcome) : Option (List Char) :=
  match generateSrtFromAudio o with
  | .success _ => none
  | .failure m => some (uiErrorMessage m)

/-- Modelled from the spec (§7): the `FailureKind` of a failed attempt.
The orchestrator's own classifications are read off `extractSrt`; a thrown
transport `Error` carries its spec classification as data (the spec
classifies it by the remote cause, e.g. a size rejection versus `any
other transport/service-level failure`, which the code does not record). -/
def specKindOf : ServiceOutcome → Option FailureKind
  | .respond t s =>
    match extractSrt t s with
    | .ok _ => none
    | .safetyBlocked => some .safetyBlocked
    | .noValidSrt => some .noValidSrt
  | .throwErr k _ => some k
  | .throwNonError => some .serviceError

/-! ## App state (src/unnamed/part_000) and the duration probe -/

/-- Language mode of part_000. -/
inductive Lang
  | original
  | english
deriving DecidableEq, Repr

/-- The state variables of `App` that `handleAudioFileChange` touches
(part_000 lines 11-16).  Durations are rationals: only their order and
zero matter to the code. -/
structure AppState where
  audioFile : Option Nat
  audioDuration : ℚ
  srtContent : List Char
  error : List Char
  targetLanguage : Lang
deriving DecidableEq, Repr

/-- `handleAudioFileChange` (part_000 lines 35-49): for a non-null file,
set the file, clear content/error/language, then await the duration
probe; a probe failure is caught, logged, and the duration set to 0. -/
def handleAudioFileChange (st : AppState) (file : Option Nat)
    (probe : Except (List Char) ℚ) : AppState :=
  match file with
  | none => st
  | some f =>
    { st with
      audioFile := some f
      srtContent := []
      error := []
      targetLanguage := .original
      audioDuration := match probe with | .ok d => d | .error _ => 0 }

/-- Loader.tsx line 35: the long-file hint is rendered exactly when the
duration exceeds 60. -/
def loaderShowsLongHint (d : ℚ) : Bool := 60 < d

/-! ## File encoding (geminiService.ts lines 81-98, `fileToBase64`) -/

/-- The base64 alphabet. -/
def base64Chars : List Char :=
  ("ABCDEFGHIJKLMNOPQRSTUVWXYZabcdefghijklmnopqrstuvwxyz0123456789+/".data)

/-- One base64 digit. -/
def b64At (n : Nat) : Char := base64Chars.getD n 'A'

/-- Modelled from the spec (§4.1 `encode`): standard base64 of a byte
sequence, the payload the browser's `FileReader.readAsDataURL` places
after the comma of the data URL.  The reader itself is a platform API,
not code of this repository. -/
def base64Encode : List Nat → List Char
  | [] => []
  | [b1] => [b64At (b1 / 4), b64At (b1 % 4 * 16), '=', '=']
  | [b1, b2] => [b64At (b1 / 4), b64At (b1 % 4 * 16 + b2 / 16), b64At (b2 % 16 * 4), '=']
  | b1 :: b2 :: b3 :: rest =>
    b64At (b1 / 4) :: b64At (b1 % 4 * 16 + b2 / 16) ::
    b64At (b2 % 16 * 4 + b3 / 64) :: b64At (b3 % 64) :: base64Encode rest

/-- Modelled from the spec: the data URL produced by
`FileReader.readAsDataURL` for a file of the given MIME type and bytes,
`data:<mime>;base64,<payload>`. -/
def dataUrlOf (mime : List Char) (bytes : List Nat) : List Char :=
  ("data:".data) ++ mime ++ (";base64,".data) ++ base64Encode bytes

/-- JS `String.prototype.split(',')`. -/
def splitOnComma : List Char → List (List Char)
  | [] => [[]]
  | c :: rest =>
    if c == ',' then [] :: splitOnComma rest
    else
      match splitOnComma rest with
      | [] => [[c]]
      | h :: t => (c :: h) :: t

/-- geminiService.ts line 93. -/
def readFailMsg : List Char := ("Failed to read file as base64.".data)

/-- The `onload` path of `fileToBase64` (geminiService.ts lines 85-95):
take part `[1]` of the comma-split data URL; resolve when it is truthy
(present and nonempty), reject with the read-failure message otherwise. -/
def fileToBase64 (dataUrl : List Char) : Except (List Char) (List Char) :=
  match (splitOnComma dataUrl).get? 1 with
  | some p => if p.isEmpty then .error readFailMsg else .ok p
  | none => .error readFailMsg

/-! ## Lemmas about the cue-header matcher -/

/-- If no position of `s` matches the cue header, the scan finds nothing. -/
theorem findCueIdx_none (s : List Char)
    (h : ∀ i, cueMatchAt (s.drop i) = false) : findCueIdx s = none := by
  induction s with
  | nil => rfl
  | cons c rest ih =>
    have h0 : cueMatchAt (c :: rest) = false := h 0
    have hr : findCueIdx rest = none := ih (fun i => h (i + 1))
    simp [findCueIdx, h0, hr]

/-- The found index is a match. -/
theorem findCueIdx_some_match {s : List Char} {i : Nat}
    (h : findCueIdx s = some i) : cueMatchAt (s.drop i) = true := by
  induction s generalizing i with
  | nil => simp [findCueIdx] at h
  | cons c rest ih =>
    by_cases hc : cueMatchAt (c :: rest) = true
    · simp [findCueIdx, hc] at h
      subst h
      simpa using hc
    · simp [findCueIdx, hc] at h
      obtain ⟨j, hj, rfl⟩ := h
      simpa using ih hj

/-- The found index is the leftmost match. -/
theorem findCueIdx_least {s : List Char} {i : Nat}
    (h : findCueIdx s = some i) : ∀ j < i, cueMatchAt (s.drop j) = false := by
  induction s generalizing i with
  | nil => simp [findCueIdx] at h
  | cons c rest ih =>
    by_cases hc : cueMatchAt (c :: rest) = true
    · simp [findCueIdx, hc] at h
      subst h
      intro j hj
      exact absurd hj (by omega)
    · simp [findCueIdx, hc] at h
      obtain ⟨j', hj', rfl⟩ := h
      intro j hj
      cases j with
      | zero => simpa using hc
      | succ k => exact ih hj' k (by omega)

/-- A match anywhere makes the scan succeed. -/
theorem findCueIdx_isSome {s : List Char} {i : Nat}
    (h : cueMatchAt (s.drop i) = true) : ∃ j, findCueIdx s = some j := by
  induction s generalizing i with
  | nil => simp [cueMatchAt] at h
  | cons c rest ih =>
    by_cases hc : cueMatchAt (c :: rest) = true
    · exact ⟨0, by simp [findCueIdx, hc]⟩
    · cases i with
      | zero => simp at h; exact absurd h hc
      | succ k =>
        obtain ⟨j, hj⟩ := ih (i := k) (by simpa using h)
        exact ⟨j + 1, by simp [findCueIdx, hc, hj]⟩

/-- A bounded no-match hypothesis extends to all indices: past the end the
suffix is empty and the cue pattern needs at least one character. -/
theorem cueMatchAt_all_false {s : List Char}
    (h : ∀ i < s.length, cueMatchAt (s.drop i) = false) :
    ∀ i, cueMatchAt (s.drop i) = false := by
  intro i
  by_cases hi : i < s.length
  · exact h i hi
  · rw [List.drop_eq_nil_of_le (by omega)]
    rfl

/-- `\s*\n` + timing accepts any whitespace run before the newline. -/
theorem wsNlTiming_append (w tl : List Char)
    (hw : ∀ c ∈ w, isJsWs c = true) (ht : timingMatch tl = true) :
    wsNlTiming (w ++ '\n' :: tl) = true := by
  induction w with
  | nil => simp [wsNlTiming, ht]
  | cons c w' ih =>
    have hc : isJsWs c = true := hw c (by simp)
    have ih' := ih (fun c hm => hw c (by simp [hm]))
    simp [wsNlTiming, hc, ih']

/-- Digits followed by a `\s*\n`-timing tail keep `digitsRest` true. -/
theorem digitsRest_append (d rest : List Char)
    (hd : ∀ c ∈ d, isDigitCh c = true) (hr : wsNlTiming rest = true) :
    digitsRest (d ++ rest) = true := by
  induction d with
  | nil =>
    cases rest with
    | nil => simp [wsNlTiming] at hr
    | cons c r => simp [digitsRest, hr]
  | cons c d' ih =>
    have hc : isDigitCh c = true := hd c (by simp)
    have ih' := ih (fun c hm => hd c (by simp [hm]))
    cases d' <;> simp_all [digitsRest]

/-- An assembled cue header matches the cue regex at its start. -/
theorem cueMatchAt_build (d w tl : List Char) (hne : d ≠ [])
    (hd : ∀ c ∈ d, isDigitCh c = true) (hw : ∀ c ∈ w, isJsWs c = true)
    (ht : timingMatch tl = true) :
    cueMatchAt (d ++ w ++ '\n' :: tl) = true := by
  cases d with
  | nil => exact absurd rfl hne
  | cons c d' =>
    have hc : isDigitCh c = true := hd c (by simp)
    have hrest : digitsRest (d' ++ (w ++ '\n' :: tl)) = true :=
      digitsRest_append d' (w ++ '\n' :: tl)
        (fun x hm => hd x (by simp [hm])) (wsNlTiming_append w tl hw ht)
    simpa [cueMatchAt, hc] using hrest

/-! ## Lemmas about trimming -/

/-- The first survivor of `dropWhile` fails the predicate. -/
theorem dropWhile_head_false {p : Char → Bool} {s : List Char} {c : Char}
    {r : List Char} (h : s.dropWhile p = c :: r) : p c = false := by
  induction s with
  | nil => simp at h
  | cons x xs ih =>
    rw [List.dropWhile_cons] at h
    by_cases hx : p x = true
    · exact ih (by simpa [hx] using h)
    · rw [if_neg (by simp [hx])] at h
      cases h
      simpa using hx

/-- `dropWhile` keeps a list whose head fails the predicate. -/
theorem dropWhile_cons_false {p : Char → Bool} {c : Char} (r : List Char)
    (h : p c = false) : (c :: r).dropWhile p = c :: r := by
  simp [List.dropWhile_cons, h]

/-- `dropWhile` is idempotent. -/
theorem dropWhile_idem (p : Char → Bool) (s : List Char) :
    (s.dropWhile p).dropWhile p = s.dropWhile p := by
  cases h : s.dropWhile p with
  | nil => rfl
  | cons c r => exact dropWhile_cons_false r (dropWhile_head_false h)

/-- `dropWhile` never lengthens a list. -/
theorem dropWhile_length_le (p : Char → Bool) (s : List Char) :
    (s.dropWhile p).length ≤ s.length := by
  induction s with
  | nil => simp
  | cons x xs ih =>
    rw [List.dropWhile_cons]
    by_cases hx : p x = true
    · rw [if_pos hx]
      simp only [List.length_cons]
      omega
    · rw [if_neg hx]

/-- A full-length `dropWhile` dropped nothing. -/
theorem dropWhile_eq_self_of_length {p : Char → Bool} {s : List Char}
    (h : (s.dropWhile p).length = s.length) : s.dropWhile p = s := by
  have hsplit : s.takeWhile p ++ s.dropWhile p = s :=
    List.takeWhile_append_dropWhile p s
  have hlen : (s.takeWhile p).length + (s.dropWhile p).length = s.length := by
    rw [← List.length_append, hsplit]
  have htw : s.takeWhile p = [] := by
    have : (s.takeWhile p).length = 0 := by omega
    exact List.eq_nil_of_length_eq_zero this
  rw [htw] at hsplit
  simpa using hsplit

/-- `trimRight` removes a whitespace suffix. -/
theorem trimRight_decomp (s : List Char) :
    ∃ w, s = trimRight s ++ w ∧ ∀ c ∈ w, isJsWs c = true := by
  refine ⟨(s.reverse.takeWhile isJsWs).reverse, ?_, ?_⟩
  · have hsplit : s.reverse.takeWhile isJsWs ++ s.reverse.dropWhile isJsWs
        = s.reverse := List.takeWhile_append_dropWhile isJsWs s.reverse
    have := congrArg List.reverse hsplit
    rw [List.reverse_append, List.reverse_reverse] at this
    exact this.symm
  · intro c hc
    rw [List.mem_reverse] at hc
    exact List.mem_takeWhile_imp hc

/-- `trimRight` is shrinking. -/
theorem trimRight_length_le (s : List Char) :
    (trimRight s).length ≤ s.length := by
  rw [trimRight, List.length_reverse]
  calc (s.reverse.dropWhile isJsWs).length ≤ s.reverse.length :=
        dropWhile_length_le _ _
    _ = s.length := List.length_reverse s

/-- A fixed point of `jsTrim` is a fixed point of both halves. -/
theorem jsTrim_fixed {s : List Char} (h : jsTrim s = s) :
    trimLeft s = s ∧ trimRight s = s := by
  have h1 : (trimRight (trimLeft s)).length ≤ (trimLeft s).length :=
    trimRight_length_le _
  have h2 : (trimLeft s).length ≤ s.length := dropWhile_length_le _ _
  have h3 : (jsTrim s).length = s.length := by rw [h]
  rw [jsTrim] at h3
  have hL0 : (trimLeft s).length = s.length := by omega
  have hL : trimLeft s = s := by
    rw [trimLeft]
    exact dropWhile_eq_self_of_length (by simpa [trimLeft] using hL0)
  refine ⟨hL, ?_⟩
  rw [jsTrim, hL] at h
  exact h

/-- Dropping a prefix preserves being right-trimmed. -/
theorem trimRight_drop {s : List Char} (h : trimRight s = s) (i : Nat) :
    trimRight (s.drop i) = s.drop i := by
  have hs : s.reverse.dropWhile isJsWs = s.reverse := by
    have := congrArg List.reverse h
    rw [trimRight, List.reverse_reverse] at this
    exact this
  have hrev : (s.drop i).reverse.dropWhile isJsWs = (s.drop i).reverse := by
    have hsplit : s.take i ++ s.drop i = s := List.take_append_drop i s
    have hrs : s.reverse = (s.drop i).reverse ++ (s.take i).reverse := by
      conv_lhs => rw [← hsplit]
      rw [List.reverse_append]
    cases hrev0 : (s.drop i).reverse with
    | nil => simp
    | cons d q =>
      have hdq : s.reverse = d :: (q ++ (s.take i).reverse) := by
        rw [hrs, hrev0]
        simp
      have hpd : isJsWs d = false := by
        by_contra hbad
        simp only [Bool.not_eq_false] at hbad
        rw [hdq, List.dropWhile_cons, if_pos (by simp [hbad])] at hs
        have hlen := dropWhile_length_le isJsWs (q ++ (s.take i).reverse)
        have hlen2 := congrArg List.length hs
        simp only [List.length_cons] at hlen2
        omega
      exact dropWhile_cons_false q hpd
  rw [trimRight, hrev, List.reverse_reverse]

/-- A suffix with a non-whitespace head of a trimmed list is trimmed. -/
theorem jsTrim_drop_self {s : List Char} (hs : jsTrim s = s) (i : Nat)
    {c : Char} {r : List Char} (hd : s.drop i = c :: r)
    (hc : isJsWs c = false) : jsTrim (s.drop i) = s.drop i := by
  obtain ⟨-, hR⟩ := jsTrim_fixed hs
  rw [jsTrim, trimLeft, hd, dropWhile_cons_false r hc, ← hd]
  exact trimRight_drop hR i

/-- `trimRight` is idempotent. -/
theorem trimRight_idem (s : List Char) :
    trimRight (trimRight s) = trimRight s := by
  simp only [trimRight, List.reverse_reverse, dropWhile_idem]

/-- `jsTrim` is idempotent. -/
theorem jsTrim_idem (s : List Char) : jsTrim (jsTrim s) = jsTrim s := by
  have hTL : trimLeft (jsTrim s) = jsTrim s := by
    rw [jsTrim]
    cases hv : trimRight (trimLeft s) with
    | nil => rfl
    | cons c r =>
      obtain ⟨w, hw, -⟩ := trimRight_decomp (trimLeft s)
      rw [hv] at hw
      have hu : s.dropWhile isJsWs = c :: (r ++ w) := by
        simpa [trimLeft] using hw
      exact dropWhile_cons_false r (dropWhile_head_false hu)
  conv_lhs => rw [jsTrim]
  rw [hTL, jsTrim, trimRight_idem]

/-- The cleaned text is a `jsTrim` image, hence trimmed. -/
theorem clean_trimmed (t : List Char) : jsTrim (clean t) = clean t := by
  rw [clean, mdUnwrap]
  cases h : findFence (jsTrim t) with
  | none => exact jsTrim_idem t
  | some cap =>
    by_cases hc : cap.isEmpty = true
    · simp only [if_pos hc]
      exact jsTrim_idem t
    · simp only [if_neg hc]
      exact jsTrim_idem cap

/-- A digit is not JS whitespace. -/
theorem isDigit_not_ws {c : Char} (h : isDigitCh c = true) : isJsWs c = false := by
  rw [isDigitCh] at h
  simp only [Bool.and_eq_true, decide_eq_true_eq] at h
  rw [isJsWs]
  simp only [Bool.or_eq_false_iff, Bool.and_eq_false_iff, beq_eq_false_iff_ne,
    ne_eq, decide_eq_false_iff_not, not_le]
  omega

/-! ## C1 -/

/-- C1 counterexample: a response whose finish-reason signals a safety
block but whose text contains a cue header does NOT fail with
`SafetyBlocked` — extraction runs first (geminiService.ts line 62 precedes
the line 68 safety check) and `generate` succeeds. -/
theorem c1_safety_cue_counterexample :
    generateSrtFromAudio
        (.respond (("1\n00:00:01,000 --> 00:00:02,000\nHello").data) true)
      = .success (("1\n00:00:01,000 --> 00:00:02,000\nHello").data) ∧
    ∀ m, CallResult.success (("1\n00:00:01,000 --> 00:00:02,000\nHello").data)
      ≠ .failure m := by
  exact ⟨by decide, fun m h => by cases h⟩

/-- C1 amended: when the finish-reason signals a safety block AND no
position of the cleaned text matches the cue-header pattern, `generate`
fails with `SafetyBlocked`; cue extraction takes precedence otherwise. -/
theorem c1_safety_block_amended (t : List Char)
    (h : ∀ i < (clean t).length, cueMatchAt ((clean t).drop i) = false) :
    extractSrt t true = .safetyBlocked ∧
    generateSrtFromAudio (.respond t true) = .failure (geminiErrPrefix ++ safetyMsg) := by
  have hn : findCueIdx (clean t) = none :=
    findCueIdx_none _ (cueMatchAt_all_false h)
  constructor
  · simp [extractSrt, hn]
  · simp [generateSrtFromAudio, extractSrt, hn]

/-- C1 witness: the amended theorem at the refusal text of Scenario C. -/
theorem c1_safety_block_witness :
    extractSrt (("I cannot process this audio.").data) true = .safetyBlocked ∧
    generateSrtFromAudio (.respond (("I cannot process this audio.").data) true)
      = .failure (geminiErrPrefix ++ safetyMsg) :=
  c1_safety_block_amended (("I cannot process this audio.").data) (by decide)

/-! ## C2 -/

/-- C2 counterexample: a text with no cue-header match anywhere fails with
`SafetyBlocked`, not `NoValidSrt`, when the finish-reason is `SAFETY`
(geminiService.ts lines 68-71 check the safety signal first). -/
theorem c2_no_cue_counterexample :
    (∀ i < (clean (("I cannot process this audio.").data)).length,
      cueMatchAt ((clean (("I cannot process this audio.").data)).drop i) = false) ∧
    extractSrt (("I cannot process this audio.").data) true = .safetyBlocked ∧
    GenResult.safetyBlocked ≠ .noValidSrt := by
  refine ⟨by decide, by decide, fun h => by cases h⟩

/-- C2 amended: with no cue-header match anywhere in the cleaned text,
`generate` fails — with `SafetyBlocked` when the finish-reason signals a
safety block, with `NoValidSrt` otherwise — and never returns a success
value, partial or empty. -/
theorem c2_no_valid_srt_amended (t : List Char) (safety : Bool)
    (h : ∀ i < (clean t).length, cueMatchAt ((clean t).drop i) = false) :
    extractSrt t safety = (if safety then GenResult.safetyBlocked else .noValidSrt) ∧
    ∀ out, extractSrt t safety ≠ .ok out := by
  have hn : findCueIdx (clean t) = none :=
    findCueIdx_none _ (cueMatchAt_all_false h)
  constructor
  · simp [extractSrt, hn]
  · intro out hout
    rw [extractSrt, hn] at hout
    cases safety <;> simp at hout

/-- C2 witness: the amended theorem at Scenario C, non-safety response. -/
theorem c2_no_valid_srt_witness :
    extractSrt (("I cannot process this audio.").data) false
      = (if false then GenResult.safetyBlocked else .noValidSrt) ∧
    ∀ out, extractSrt (("I cannot process this audio.").data) false ≠ .ok out :=
  c2_no_valid_srt_amended (("I cannot process this audio.").data) false (by decide)

/-! ## C10 -/

/-- C10: whenever the value thrown inside the `try` block is an `Error`
with message `m` — a transport error, or the orchestrator's own
`SafetyBlocked`/`NoValidSrt` classification errors of lines 69/71 — the
catch handler of geminiService.ts line 73 rethrows it with the message
`Gemini API Error: ` ++ m. -/
theorem c10_error_wrapped (o : ServiceOutcome) (m : List Char)
    (h : underlyingErrorMsg o = some m) :
    generateSrtFromAudio o = .failure (geminiErrPrefix ++ m) := by
  cases o with
  | respond t s =>
    rw [underlyingErrorMsg] at h
    cases hx : extractSrt t s <;> rw [hx] at h <;> simp at h <;>
      simp [generateSrtFromAudio, hx, h]
  | throwErr k msg =>
    simp [underlyingErrorMsg] at h
    simp [generateSrtFromAudio, h]
  | throwNonError => simp [underlyingErrorMsg] at h

/-- C10 witness: a no-cue response's classification error surfaces with
the prefix. -/
theorem c10_error_wrapped_witness :
    generateSrtFromAudio (.respond (("I cannot process this audio.").data) false)
      = .failure (geminiErrPrefix ++ noValidSrtMsg) :=
  c10_error_wrapped (.respond (("I cannot process this audio.").data) false)
    noValidSrtMsg (by decide)

/-! ## C3 -/

/-- C3: whenever `generate` succeeds, the returned string is the suffix of
the cleaned (trimmed, markdown-unwrapped) text from the start of the first
cue-header match — equal to that suffix trimmed, since it starts with a
digit and the cleaned text has no trailing whitespace — it matches the cue
header at its start (integer index line, then timing line), and no earlier
position matched.  The trailing content after the first cue is the
verbatim remainder of the cleaned text. -/
theorem c3_success_shape (t : List Char) (s : Bool) (out : List Char)
    (h : extractSrt t s = .ok out) :
    ∃ i, findCueIdx (clean t) = some i ∧
      out = jsTrim ((clean t).drop i) ∧
      out = (clean t).drop i ∧
      cueMatchAt out = true ∧
      ∀ j < i, cueMatchAt ((clean t).drop j) = false := by
  rw [extractSrt] at h
  cases hf : findCueIdx (clean t) with
  | none =>
    rw [hf] at h
    cases s <;> simp at h
  | some i =>
    rw [hf] at h
    have hout : (clean t).drop i = out := by
      cases h
      rfl
    subst hout
    have hm := findCueIdx_some_match hf
    refine ⟨i, rfl, ?_, rfl, hm, findCueIdx_least hf⟩
    cases hd : (clean t).drop i with
    | nil =>
      rw [hd] at hm
      simp [cueMatchAt] at hm
    | cons c r =>
      rw [hd] at hm
      rw [cueMatchAt] at hm
      have hdig : isDigitCh c = true := (Bool.and_eq_true _ _ |>.mp hm).1
      rw [← hd, jsTrim_drop_self (clean_trimmed t) i hd (isDigit_not_ws hdig)]

/-- C3 witness: the theorem at the Scenario B response. -/
theorem c3_success_shape_witness :
    ∃ i, findCueIdx (clean (("Here are the subtitles:\n1\n00:00:00,500 --> 00:00:01,500\nHi there\n").data)) = some i ∧
      (("1\n00:00:00,500 --> 00:00:01,500\nHi there").data)
        = jsTrim ((clean (("Here are the subtitles:\n1\n00:00:00,500 --> 00:00:01,500\nHi there\n").data)).drop i) ∧
      (("1\n00:00:00,500 --> 00:00:01,500\nHi there").data)
        = (clean (("Here are the subtitles:\n1\n00:00:00,500 --> 00:00:01,500\nHi there\n").data)).drop i ∧
      cueMatchAt (("1\n00:00:00,500 --> 00:00:01,500\nHi there").data) = true ∧
      ∀ j < i, cueMatchAt ((clean (("Here are the subtitles:\n1\n00:00:00,500 --> 00:00:01,500\nHi there\n").data)).drop j) = false :=
  c3_success_shape (("Here are the subtitles:\n1\n00:00:00,500 --> 00:00:01,500\nHi there\n").data)
    false (("1\n00:00:00,500 --> 00:00:01,500\nHi there").data) (by decide)

/-! ## C5 -/

/-- C5: when the cleaned text has a cue-header match, the output of
`generate` is exactly the cleaned text from the leftmost match onward —
all preamble before the matched digit index line is discarded, and no
earlier position matches.  In particular Scenario B's preamble
`Here are the subtitles:` is dropped. -/
theorem c5_preamble_discarded :
    (∀ (t : List Char) (s : Bool) (i : Nat), findCueIdx (clean t) = some i →
      extractSrt t s = .ok ((clean t).drop i) ∧
      cueMatchAt ((clean t).drop i) = true ∧
      ∀ j < i, cueMatchAt ((clean t).drop j) = false) ∧
    extractSrt (("Here are the subtitles:\n1\n00:00:00,500 --> 00:00:01,500\nHi there\n").data) false
      = .ok (("1\n00:00:00,500 --> 00:00:01,500\nHi there").data) := by
  constructor
  · intro t s i h
    exact ⟨by rw [extractSrt, h], findCueIdx_some_match h, findCueIdx_least h⟩
  · decide

/-- C5 witness: the universal part at the concrete Scenario B response
with a safety-flagged finish-reason. -/
theorem c5_preamble_discarded_witness :
    extractSrt (("Here are the subtitles:\n1\n00:00:00,500 --> 00:00:01,500\nHi there\n").data) true
      = .ok ((clean (("Here are the subtitles:\n1\n00:00:00,500 --> 00:00:01,500\nHi there\n").data)).drop 24) ∧
    cueMatchAt ((clean (("Here are the subtitles:\n1\n00:00:00,500 --> 00:00:01,500\nHi there\n").data)).drop 24) = true ∧
    ∀ j < 24, cueMatchAt ((clean (("Here are the subtitles:\n1\n00:00:00,500 --> 00:00:01,500\nHi there\n").data)).drop j) = false :=
  c5_preamble_discarded.1
    (("Here are the subtitles:\n1\n00:00:00,500 --> 00:00:01,500\nHi there\n").data)
    true 24 (by decide)

/-! ## Lemmas about the fence matcher -/

/-- A list starts with itself plus anything. -/
theorem startsWith_append_self (p t : List Char) :
    startsWith p (p ++ t) = true := by
  induction p with
  | nil => rfl
  | cons c ps ih => simp [startsWith, ih]

/-- A short pattern prefixing `a ++ b` already prefixes `a`. -/
theorem startsWith_append_left {p a : List Char} (b : List Char)
    (hlen : p.length ≤ a.length) (h : startsWith p (a ++ b) = true) :
    startsWith p a = true := by
  induction p generalizing a with
  | nil => rfl
  | cons c ps ih =>
    cases a with
    | nil => simp at hlen
    | cons x xs =>
      rw [List.cons_append] at h
      rw [startsWith] at h ⊢
      simp only [Bool.and_eq_true] at h ⊢
      exact ⟨h.1, ih (by simpa using hlen) h.2⟩

/-- Soundness of the lazy capture: it is the shortest nonempty prefix
followed by the closing `\n\x60\x60\x60`. -/
theorem lazyCap_sound {u cap : List Char} (h : lazyCap u = some cap) :
    ∃ n, 1 ≤ n ∧ cap = u.take n ∧ startsWith nlTicks (u.drop n) = true ∧
      ∀ m, 1 ≤ m → m < n → startsWith nlTicks (u.drop m) = false := by
  induction u generalizing cap with
  | nil => simp [lazyCap] at h
  | cons c rest ih =>
    rw [lazyCap] at h
    by_cases hs : startsWith nlTicks rest = true
    · rw [if_pos hs] at h
      cases h
      exact ⟨1, le_refl 1, by simp, by simpa using hs, fun m h1 h2 => by omega⟩
    · rw [if_neg hs] at h
      rw [Option.map_eq_some'] at h
      obtain ⟨cap', hcap', rfl⟩ := h
      obtain ⟨n, hn1, hne, hnd, hmin⟩ := ih hcap'
      refine ⟨n + 1, by omega, by simp [hne], by simpa using hnd, ?_⟩
      intro m h1 h2
      cases m with
      | zero => omega
      | succ k =>
        cases k with
        | zero => simpa using hs
        | succ k' =>
          have := hmin (k' + 1) (by omega) (by omega)
          simpa using this

/-- Completeness of the lazy capture: any closing fence at distance at
least one makes it succeed. -/
theorem lazyCap_complete {u : List Char} {n : Nat} (h1 : 1 ≤ n)
    (h2 : startsWith nlTicks (u.drop n) = true) :
    ∃ cap, lazyCap u = some cap := by
  induction u generalizing n with
  | nil =>
    rw [List.drop_nil] at h2
    simp [nlTicks, startsWith] at h2
  | cons c rest ih =>
    by_cases hs : startsWith nlTicks rest = true
    · exact ⟨[c], by rw [lazyCap, if_pos hs]⟩
    · cases n with
      | zero => omega
      | succ k =>
        cases k with
        | zero => exact absurd (by simpa using h2) hs
        | succ k' =>
          obtain ⟨cap', hcap'⟩ := ih (n := k' + 1) (by omega) (by simpa using h2)
          exact ⟨c :: cap', by rw [lazyCap, if_neg hs, hcap']; rfl⟩

/-- Soundness of the `\s*\n` stage: some all-whitespace prefix ends at a
newline, and the capture comes from the lazy stage right after it. -/
theorem wsNlCap_sound {s cap : List Char} (h : wsNlCap s = some cap) :
    ∃ k rest', s.drop k = '\n' :: rest' ∧
      (∀ c ∈ s.take k, isJsWs c = true) ∧ lazyCap rest' = some cap := by
  induction s generalizing cap with
  | nil => simp [wsNlCap] at h
  | cons c rest ih =>
    rw [wsNlCap] at h
    by_cases hw : isJsWs c = true
    · rw [if_pos hw] at h
      cases hr : wsNlCap rest with
      | some cap' =>
        rw [hr] at h
        cases h
        obtain ⟨k, rest', h1, h2, h3⟩ := ih hr
        refine ⟨k + 1, rest', by simpa using h1, ?_, h3⟩
        intro x hx
        rw [List.take_succ_cons] at hx
        rcases List.mem_cons.mp hx with rfl | hx'
        · exact hw
        · exact h2 x hx'
      | none =>
        rw [hr] at h
        by_cases hc : (c == '\n') = true
        · rw [if_pos hc] at h
          exact ⟨0, rest, by rw [List.drop_zero, (beq_iff_eq ..).mp hc],
            by simp, h⟩
        · rw [if_neg hc] at h
          cases h
    · rw [if_neg hw] at h
      cases h

/-- Completeness of the `\s*\n` stage. -/
theorem wsNlCap_complete {s : List Char} {k : Nat} {rest' cap0 : List Char}
    (hk : s.drop k = '\n' :: rest')
    (hws : ∀ c ∈ s.take k, isJsWs c = true)
    (hl : lazyCap rest' = some cap0) :
    ∃ cap, wsNlCap s = some cap := by
  induction s generalizing k rest' with
  | nil => simp at hk
  | cons c rest ih =>
    cases k with
    | zero =>
      rw [List.drop_zero] at hk
      cases hk
      cases hr : wsNlCap rest with
      | some cap' =>
        exact ⟨cap', by rw [wsNlCap, if_pos (by decide), hr]⟩
      | none =>
        refine ⟨cap0, ?_⟩
        rw [wsNlCap, if_pos (by decide), hr, if_pos (by decide)]
        exact hl
    | succ k' =>
      have hcw : isJsWs c = true := hws c (by simp [List.take_succ_cons])
      have hrest : ∀ x ∈ rest.take k', isJsWs x = true := by
        intro x hx
        exact hws x (by simp [List.take_succ_cons, hx])
      obtain ⟨cap', hcap'⟩ := ih (k := k') (by simpa using hk) hrest hl
      exact ⟨cap', by rw [wsNlCap, if_pos hcw, hcap']⟩

/-- Dropping an all-satisfying prefix commutes with `dropWhile`. -/
theorem dropWhile_append_allP {p : Char → Bool} {a : List Char} (b : List Char)
    (h : ∀ c ∈ a, p c = true) :
    List.dropWhile p (a ++ b) = List.dropWhile p b := by
  induction a with
  | nil => rfl
  | cons c a' ih =>
    rw [List.cons_append, List.dropWhile_cons, if_pos (h c (by simp))]
    exact ih (fun c hc => h c (by simp [hc]))

/-- Trimming ignores an all-whitespace prefix. -/
theorem jsTrim_drop_ws_prefix {s : List Char} {k : Nat}
    (h : ∀ c ∈ s.take k, isJsWs c = true) :
    jsTrim (s.drop k) = jsTrim s := by
  rw [jsTrim, jsTrim, trimLeft, trimLeft]
  congr 1
  conv_rhs => rw [← List.take_append_drop k s]
  rw [dropWhile_append_allP (s.drop k) h]

/-- An all-whitespace string trims to nothing. -/
theorem allws_jsTrim_nil {s : List Char} (h : ∀ c ∈ s, isJsWs c = true) :
    jsTrim s = [] := by
  have h2 : jsTrim (s.drop s.length) = jsTrim s :=
    jsTrim_drop_ws_prefix (k := s.length) (fun c hc => h c (List.take_subset _ _ hc))
  rw [List.drop_length] at h2
  rw [← h2]
  rfl

/-- The fence interior: on `\n interior \n\x60\x60\x60 ws2` with no closing
fence inside the interior and a nonblank interior, the `\s*\n`+lazy stage
succeeds and its capture trims to the trimmed interior. -/
theorem wsNlCap_fence (interior ws2 : List Char)
    (hno : ∀ i < interior.length, startsWith nlTicks (interior.drop i) = false)
    (hne : jsTrim interior ≠ []) :
    ∃ cap,
      wsNlCap ('\n' :: (interior ++ '\n' :: '`' :: '`' :: '`' :: ws2)) = some cap ∧
      jsTrim cap = jsTrim interior ∧ cap ≠ [] := by
  have hqpos : 1 ≤ interior.length := by
    cases interior with
    | nil => exact absurd rfl hne
    | cons c r => simp
  have hdropq :
      (interior ++ '\n' :: '`' :: '`' :: '`' :: ws2).drop interior.length
        = '\n' :: '`' :: '`' :: '`' :: ws2 := List.drop_left interior _
  have hstartTail : startsWith nlTicks ('\n' :: '`' :: '`' :: '`' :: ws2) = true := by
    simp [nlTicks, startsWith]
  obtain ⟨cap0, hcap0⟩ :=
    lazyCap_complete (u := interior ++ '\n' :: '`' :: '`' :: '`' :: ws2)
      (n := interior.length) hqpos (by rw [hdropq]; exact hstartTail)
  obtain ⟨cap, hcap⟩ :=
    wsNlCap_complete (s := '\n' :: (interior ++ '\n' :: '`' :: '`' :: '`' :: ws2))
      (k := 0) rfl (by simp) hcap0
  refine ⟨cap, hcap, ?_⟩
  obtain ⟨k, rest', h1, h2, h3⟩ := wsNlCap_sound hcap
  obtain ⟨n, hn1, hcapn, hnd, hmin⟩ := lazyCap_sound h3
  have hgetk :
      ('\n' :: (interior ++ '\n' :: '`' :: '`' :: '`' :: ws2))[k]? = some '\n' := by
    have := congrArg (fun l => l[0]?) h1
    simpa [List.getElem?_drop] using this
  have hK1 : ∀ c ∈ ('\n' :: (interior ++ '\n' :: '`' :: '`' :: '`' :: ws2)).take (k + 1),
      isJsWs c = true := by
    intro c hc
    rw [List.take_succ, hgetk] at hc
    rcases List.mem_append.mp hc with hc' | hc'
    · exact h2 c hc'
    · simp at hc'
      subst hc'
      decide
  have hklt : k < interior.length := by
    by_contra hk
    push_neg at hk
    have hallws : ∀ c ∈ interior, isJsWs c = true := by
      intro c hc
      apply hK1
      have hmem : c ∈ ('\n' :: (interior ++ '\n' :: '`' :: '`' :: '`' :: ws2)).take
          (interior.length + 1) := by
        rw [List.take_succ_cons, List.take_append_eq_append_take, List.take_length,
          Nat.sub_self, List.take_zero, List.append_nil]
        exact List.mem_cons_of_mem _ hc
      have hsub : ('\n' :: (interior ++ '\n' :: '`' :: '`' :: '`' :: ws2)).take
            (interior.length + 1)
          = (('\n' :: (interior ++ '\n' :: '`' :: '`' :: '`' :: ws2)).take (k + 1)).take
            (interior.length + 1) := by
        rw [List.take_take, Nat.min_eq_left (by omega)]
      rw [hsub] at hmem
      exact List.take_subset _ _ hmem
    exact hne (allws_jsTrim_nil hallws)
  have hrest' : rest' = interior.drop k ++ '\n' :: '`' :: '`' :: '`' :: ws2 := by
    have h1' := congrArg (List.drop 1) h1
    rw [List.drop_drop] at h1'
    simp only [List.drop_succ_cons, List.drop_one, List.drop_zero,
      List.tail_cons] at h1'
    rw [List.drop_append_eq_append_drop,
      Nat.sub_eq_zero_of_le (le_of_lt hklt), List.drop_zero] at h1'
    exact h1'.symm
  have hlenflush : (interior.drop k).length = interior.length - k :=
    List.length_drop k interior
  have hOcc : startsWith nlTicks (rest'.drop (interior.length - k)) = true := by
    rw [hrest', ← hlenflush, List.drop_left]
    exact hstartTail
  have hnone : ∀ m, 1 ≤ m → m < interior.length - k →
      startsWith nlTicks (rest'.drop m) = false := by
    intro m hm1 hm2
    have hjq : k + m < interior.length := by omega
    have hdropm : rest'.drop m
        = interior.drop (k + m) ++ '\n' :: '`' :: '`' :: '`' :: ws2 := by
      rw [hrest', List.drop_append_eq_append_drop,
        Nat.sub_eq_zero_of_le (by rw [hlenflush]; omega), List.drop_zero,
        List.drop_drop]
    rw [hdropm]
    by_contra htrue
    rw [Bool.not_eq_false] at htrue
    have hlen2 : (interior.drop (k + m)).length = interior.length - (k + m) :=
      List.length_drop _ _
    cases hdj : interior.drop (k + m) with
    | nil =>
      rw [hdj] at hlen2
      simp at hlen2
      omega
    | cons a l1 =>
      cases l1 with
      | nil =>
        rw [hdj] at htrue
        simp [nlTicks, startsWith] at htrue
      | cons b l2 =>
        cases l2 with
        | nil =>
          rw [hdj] at htrue
          simp [nlTicks, startsWith] at htrue
        | cons c3 l3 =>
          cases l3 with
          | nil =>
            rw [hdj] at htrue
            simp [nlTicks, startsWith] at htrue
          | cons d l4 =>
            rw [hdj] at htrue
            have hpref := startsWith_append_left ('\n' :: '`' :: '`' :: '`' :: ws2)
              (by simp [nlTicks]) htrue
            have hfalse := hno (k + m) hjq
            rw [hdj] at hfalse
            rw [hfalse] at hpref
            cases hpref
  have hn : n = interior.length - k := by
    rcases Nat.lt_trichotomy n (interior.length - k) with h | h | h
    · rw [hnone n hn1 h] at hnd
      cases hnd
    · exact h
    · rw [hmin (interior.length - k) (by omega) h] at hOcc
      cases hOcc
  have hcapval : cap = interior.drop k := by
    rw [hcapn, hn, hrest', ← hlenflush, List.take_left]
  have htakeEq : ('\n' :: (interior ++ '\n' :: '`' :: '`' :: '`' :: ws2)).take (k + 1)
      = '\n' :: interior.take k := by
    rw [List.take_succ_cons, List.take_append_eq_append_take,
      Nat.sub_eq_zero_of_le (le_of_lt hklt), List.take_zero, List.append_nil]
  have hKint : ∀ c ∈ interior.take k, isJsWs c = true := by
    intro c hc
    apply hK1
    rw [htakeEq]
    exact List.mem_cons_of_mem _ hc
  constructor
  · rw [hcapval]
    exact jsTrim_drop_ws_prefix hKint
  · rw [hcapval]
    intro hnil
    have hcl := congrArg List.length hnil
    rw [hlenflush] at hcl
    simp at hcl
    omega

/-- Whitespace is not a backtick. -/
theorem ws_not_backtick {c : Char} (h : isJsWs c = true) : ('`' == c) = false := by
  rw [beq_eq_false_iff_ne]
  intro he
  rw [← he] at h
  exact absurd h (by decide)

/-- The fence scan skips a whitespace prefix: no fence can start inside it. -/
theorem findFence_ws_skip {w : List Char} (rest : List Char)
    (hw : ∀ c ∈ w, isJsWs c = true) :
    findFence (w ++ rest) = findFence rest := by
  induction w with
  | nil => rfl
  | cons c w' ih =>
    have hsw : startsWith (['`', '`', '`']) (c :: (w' ++ rest)) = false := by
      rw [startsWith]
      simp [ws_not_backtick (hw c (by simp))]
    have hfa : fenceAt (c :: (w' ++ rest)) = none := by
      rw [fenceAt, if_neg (by simp [hsw])]
    rw [List.cons_append, findFence, hfa]
    exact ih (fun x hx => hw x (by simp [hx]))

/-! ## C4 -/

/-- C4: for every response text that wraps a fenced code block — tagged
`srt` or untagged, with arbitrary whitespace outside the fence and a
well-formed interior (nonblank, containing no closing fence) — the
markdown-unwrap step replaces the text with exactly the fenced interior,
trimmed.  In particular Scenario A's text unwraps to its inner SRT cue. -/
theorem c4_markdown_unwrap :
    (∀ ws1 ws2 tag interior : List Char,
      (∀ c ∈ ws1, isJsWs c = true) →
      (∀ c ∈ ws2, isJsWs c = true) →
      (tag = [] ∨ tag = ['s', 'r', 't']) →
      (∀ i < interior.length, startsWith nlTicks (interior.drop i) = false) →
      jsTrim interior ≠ [] →
      mdUnwrap (ws1 ++ '`' :: '`' :: '`' ::
          (tag ++ '\n' :: (interior ++ '\n' :: '`' :: '`' :: '`' :: ws2)))
        = jsTrim interior) ∧
    mdUnwrap (("Sure! ```srt\n1\n00:00:01,000 --> 00:00:02,000\nHello\n```").data)
      = (("1\n00:00:01,000 --> 00:00:02,000\nHello").data) := by
  constructor
  · intro ws1 ws2 tag interior hw1 hw2 htag hno hne
    obtain ⟨cap, hcap, htrim, hcne⟩ := wsNlCap_fence interior ws2 hno hne
    have hafter : afterTicks
        (tag ++ '\n' :: (interior ++ '\n' :: '`' :: '`' :: '`' :: ws2))
        = some cap := by
      rcases htag with rfl | rfl
      · rw [List.nil_append, afterTicks,
          if_neg (by rw [startsWith]; simp)]
        exact hcap
      · rw [afterTicks, if_pos (startsWith_append_self (['s', 'r', 't']) _)]
        rw [show (['s', 'r', 't'] ++
            '\n' :: (interior ++ '\n' :: '`' :: '`' :: '`' :: ws2)).drop 3
          = '\n' :: (interior ++ '\n' :: '`' :: '`' :: '`' :: ws2)
          from List.drop_left (['s', 'r', 't']) _]
        rw [hcap]
    have hfence : fenceAt ('`' :: '`' :: '`' ::
        (tag ++ '\n' :: (interior ++ '\n' :: '`' :: '`' :: '`' :: ws2)))
        = some cap := by
      rw [fenceAt, if_pos (by rw [startsWith]; simp [startsWith])]
      exact hafter
    have hempty : cap.isEmpty = false := by
      cases cap with
      | nil => exact absurd rfl hcne
      | cons a l => rfl
    have hff : findFence (ws1 ++ '`' :: '`' :: '`' ::
        (tag ++ '\n' :: (interior ++ '\n' :: '`' :: '`' :: '`' :: ws2)))
        = some cap := by
      rw [findFence_ws_skip _ hw1, findFence, hfence]
    simp only [mdUnwrap, hff]
    rw [if_neg (by simp [hempty])]
    exact htrim
  · decide

/-- C4 witness: the universal part at an explicit tagged fence around the
Scenario A cue. -/
theorem c4_markdown_unwrap_witness :
    mdUnwrap ([] ++ '`' :: '`' :: '`' :: (['s', 'r', 't'] ++ '\n' ::
        ((("1\n00:00:01,000 --> 00:00:02,000\nHello").data) ++
          '\n' :: '`' :: '`' :: '`' :: [])))
      = jsTrim (("1\n00:00:01,000 --> 00:00:02,000\nHello").data) :=
  c4_markdown_unwrap.1 [] [] (['s', 'r', 't'])
    (("1\n00:00:01,000 --> 00:00:02,000\nHello").data)
    (by decide) (by decide) (Or.inr rfl) (by decide) (by decide)

/-! ## C6 -/

/-- A timing line with period millisecond separators satisfies the timing
pattern: `[,.]` accepts the period. -/
theorem timingMatch_period (n1 n2 n3 n4 n5 n6 n7 n8 n9 m1 m2 m3 m4 m5 m6 m7 m8 m9 : Char)
    (rest : List Char)
    (hd : ∀ c ∈ [n1, n2, n3, n4, n5, n6, n7, n8, n9, m1, m2, m3, m4, m5, m6, m7, m8, m9],
      isDigitCh c = true) :
    timingMatch (n1 :: n2 :: ':' :: n3 :: n4 :: ':' :: n5 :: n6 :: '.' :: n7 :: n8 :: n9 ::
      ' ' :: '-' :: '-' :: '>' :: ' ' :: m1 :: m2 :: ':' :: m3 :: m4 :: ':' ::
      m5 :: m6 :: '.' :: m7 :: m8 :: m9 :: rest) = true := by
  simp only [List.mem_cons, List.not_mem_nil, or_false, forall_eq_or_imp, forall_eq] at hd
  obtain ⟨h1, h2, h3, h4, h5, h6, h7, h8, h9, g1, g2, g3, g4, g5, g6, g7, g8, g9⟩ := hd
  simp [timingMatch, timingPat, matchClasses, isTimingSep,
    h1, h2, h3, h4, h5, h6, h7, h8, h9, g1, g2, g3, g4, g5, g6, g7, g8, g9]

/-- C6: for every response whose cleaned text contains a cue block whose
timing line uses the period millisecond separator, the cue-header match
still succeeds and `generate` returns a document instead of failing with
`NoValidSrt`. -/
theorem c6_period_separator (t : List Char) (s : Bool)
    (pre d w rest : List Char)
    (n1 n2 n3 n4 n5 n6 n7 n8 n9 m1 m2 m3 m4 m5 m6 m7 m8 m9 : Char)
    (hclean : clean t = pre ++ d ++ w ++ '\n' ::
      (n1 :: n2 :: ':' :: n3 :: n4 :: ':' :: n5 :: n6 :: '.' :: n7 :: n8 :: n9 ::
       ' ' :: '-' :: '-' :: '>' :: ' ' :: m1 :: m2 :: ':' :: m3 :: m4 :: ':' ::
       m5 :: m6 :: '.' :: m7 :: m8 :: m9 :: rest))
    (hne : d ≠ []) (hd : ∀ c ∈ d, isDigitCh c = true)
    (hw : ∀ c ∈ w, isJsWs c = true)
    (hdig : ∀ c ∈ [n1, n2, n3, n4, n5, n6, n7, n8, n9, m1, m2, m3, m4, m5, m6, m7, m8, m9],
      isDigitCh c = true) :
    (∃ out, extractSrt t s = .ok out) ∧ extractSrt t s ≠ .noValidSrt := by
  have hcue : cueMatchAt ((clean t).drop pre.length) = true := by
    rw [hclean]
    rw [show pre ++ d ++ w ++ '\n' ::
        (n1 :: n2 :: ':' :: n3 :: n4 :: ':' :: n5 :: n6 :: '.' :: n7 :: n8 :: n9 ::
         ' ' :: '-' :: '-' :: '>' :: ' ' :: m1 :: m2 :: ':' :: m3 :: m4 :: ':' ::
         m5 :: m6 :: '.' :: m7 :: m8 :: m9 :: rest)
      = pre ++ (d ++ w ++ '\n' ::
        (n1 :: n2 :: ':' :: n3 :: n4 :: ':' :: n5 :: n6 :: '.' :: n7 :: n8 :: n9 ::
         ' ' :: '-' :: '-' :: '>' :: ' ' :: m1 :: m2 :: ':' :: m3 :: m4 :: ':' ::
         m5 :: m6 :: '.' :: m7 :: m8 :: m9 :: rest)) from by simp]
    rw [List.drop_left]
    exact cueMatchAt_build d w _ hne hd hw
      (timingMatch_period n1 n2 n3 n4 n5 n6 n7 n8 n9 m1 m2 m3 m4 m5 m6 m7 m8 m9 rest hdig)
  obtain ⟨j, hj⟩ := findCueIdx_isSome hcue
  constructor
  · exact ⟨(clean t).drop j, by rw [extractSrt, hj]⟩
  · rw [extractSrt, hj]
    simp

/-- C6 witness: a period-separated document is accepted end to end. -/
theorem c6_period_separator_witness :
    (∃ out, extractSrt (("1\n00:00:01.000 --> 00:00:02.000\nHello").data) false = .ok out) ∧
    extractSrt (("1\n00:00:01.000 --> 00:00:02.000\nHello").data) false ≠ .noValidSrt :=
  c6_period_separator (("1\n00:00:01.000 --> 00:00:02.000\nHello").data) false
    [] (['1']) [] (("\nHello").data)
    '0' '0' '0' '0' '0' '1' '0' '0' '0' '0' '0' '0' '0' '0' '2' '0' '0' '0'
    (by decide) (by decide) (by decide) (by decide) (by decide)

/-! ## C7 -/

/-- C7 counterexample: the user-facing sentence is not a function of the
`FailureKind` alone.  Two transport failures of the same spec kind
(`ServiceError`: a dropped network connection, and a connection closed by
a proxy — neither a remote rejection for format or size) surface different
sentences, because `processAudio` (part_000 lines 78-90) picks the
sentence by substring tests on the raw wrapped message, and the second
message happens to contain `too long`. -/
theorem c7_kind_mapping_counterexample :
    ¬ ∃ f : FailureKind → List Char,
        ∀ o k, specKindOf o = some k → failureSentence o = some (f k) := by
  rintro ⟨f, hf⟩
  have h1 := hf (.throwErr .serviceError (("network connection lost").data))
    .serviceError rfl
  have h2 := hf
    (.throwErr .serviceError (("connection closed: response held open too long").data))
    .serviceError rfl
  have h3 : failureSentence
      (.throwErr .serviceError (("network connection lost").data))
      = some serviceSentence := by decide
  have h4 : failureSentence
      (.throwErr .serviceError (("connection closed: response held open too long").data))
      = some sizeSentence := by decide
  rw [h3] at h1
  rw [h4] at h2
  have : some serviceSentence = some sizeSentence := h1.trans h2.symm
  exact absurd this (by decide)

/-- C7 amended: failures are carried upward as `Error` message strings and
the UI selects the sentence by ordered case-insensitive substring tests on
the raw message; for the orchestrator's own classifications the fixed
messages make this well-defined — a `SafetyBlocked` attempt surfaces the
safety sentence and a `NoValidSrt` attempt the could-not-process sentence,
and the two sentences are distinct. -/
theorem c7_sentence_amended (t : List Char) (s : Bool) :
    (extractSrt t s = .safetyBlocked →
      failureSentence (.respond t s) = some safetySentence) ∧
    (extractSrt t s = .noValidSrt →
      failureSentence (.respond t s) = some aiFailSentence) ∧
    safetySentence ≠ aiFailSentence := by
  refine ⟨?_, ?_, by decide⟩
  · intro h
    rw [failureSentence]
    simp [generateSrtFromAudio, h]
    decide
  · intro h
    rw [failureSentence]
    simp [generateSrtFromAudio, h]
    decide

/-- C7 witness: the amended theorem at the safety-blocked refusal. -/
theorem c7_sentence_witness :
    (extractSrt (("I cannot process this audio.").data) true = .safetyBlocked →
      failureSentence (.respond (("I cannot process this audio.").data) true)
        = some safetySentence) ∧
    (extractSrt (("I cannot process this audio.").data) true = .noValidSrt →
      failureSentence (.respond (("I cannot process this audio.").data) true)
        = some aiFailSentence) ∧
    safetySentence ≠ aiFailSentence :=
  c7_sentence_amended (("I cannot process this audio.").data) true

/-! ## C8 -/

/-- C8: a failed duration probe is caught by `handleAudioFileChange`
(part_000 lines 44-47): the attempt does not fail — the resulting state is
exactly the one a successful probe of 0 would give, its error field stays
empty, the file is kept — and the probed value's only consumer, the
long-file hint of Loader.tsx line 35, is not shown for it. -/
theorem c8_probe_fails_gracefully (st : AppState) (f : Nat) (e : List Char) :
    handleAudioFileChange st (some f) (.error e)
      = handleAudioFileChange st (some f) (.ok 0) ∧
    (handleAudioFileChange st (some f) (.error e)).audioDuration = 0 ∧
    (handleAudioFileChange st (some f) (.error e)).error = [] ∧
    (handleAudioFileChange st (some f) (.error e)).audioFile = some f ∧
    loaderShowsLongHint (handleAudioFileChange st (some f) (.error e)).audioDuration
      = false := by
  refine ⟨rfl, rfl, rfl, rfl, ?_⟩
  simp [handleAudioFileChange, loaderShowsLongHint]

/-- C8 witness: the theorem at a concrete state. -/
theorem c8_probe_fails_gracefully_witness :
    handleAudioFileChange ⟨none, 7, [], [], .original⟩ (some 1) (.error (("boom").data))
      = handleAudioFileChange ⟨none, 7, [], [], .original⟩ (some 1) (.ok 0) ∧
    (handleAudioFileChange ⟨none, 7, [], [], .original⟩ (some 1)
        (.error (("boom").data))).audioDuration = 0 ∧
    (handleAudioFileChange ⟨none, 7, [], [], .original⟩ (some 1)
        (.error (("boom").data))).error = [] ∧
    (handleAudioFileChange ⟨none, 7, [], [], .original⟩ (some 1)
        (.error (("boom").data))).audioFile = some 1 ∧
    loaderShowsLongHint ((handleAudioFileChange ⟨none, 7, [], [], .original⟩ (some 1)
        (.error (("boom").data))).audioDuration) = false :=
  c8_probe_fails_gracefully ⟨none, 7, [], [], .original⟩ 1 (("boom").data)

/-! ## C9 -/

/-- C9: for a zero-byte file the data URL carries an empty base64 payload,
so the truthiness guard of geminiService.ts line 90 takes the reject
branch with the read-failure message, although the read completed. -/
theorem c9_empty_file_read_failure :
    base64Encode [] = [] ∧
    fileToBase64 (dataUrlOf (("audio/mpeg").data) []) = .error readFailMsg ∧
    readFailMsg = (("Failed to read file as base64.").data) :=
  ⟨rfl, rfl, rfl⟩

end SubGen
